import Mathlib

/-!
Verification of the thermal-detection backend's job-lifecycle and
file-storage subsystem (`backend/app/storage.py`, `backend/app/processor.py`,
`backend/app/main.py`), shallowly embedded in Lean.

Python strings are modelled as Lean `String`/`List Char`; the file system is
modelled as explicit state (lists of paths / stored documents); Python floats
that only flow through comparisons and two-decimal formatting are modelled as
rationals (with an explicit NaN marker where NaN semantics matters).
-/

namespace ThermalBackend

/-! ### `ImageProcessor.sanitize_filename` (processor.py, lines 100-119)

Python:
```
filename = os.path.basename(filename)            -- posix: text after last '/'
if not filename or filename in ('.', '..'): return "unnamed_file"
filename = re.sub(r'[<>:"|?*\x00-\x1f]', '_', filename)
filename = filename.strip('. ')
if not filename: return "unnamed_file"
```
-/

/-- A character replaced by `_` in `re.sub(r'[<>:"|?*\x00-\x1f]', '_', ...)`. -/
def hostileChar (c : Char) : Bool :=
  c == '<' || c == '>' || c == ':' || c == '"' || c == '|' || c == '?' ||
    c == '*' || decide (c.toNat ≤ 0x1f)

/-- A character stripped from both ends by Python's `.strip('. ')`. -/
def dotSpace (c : Char) : Bool :=
  c == '.' || c == ' '

/-- `os.path.basename` on a posix system: the suffix after the last `/`. -/
def basenameChars (l : List Char) : List Char :=
  l.rtakeWhile (fun c => !(c == '/'))

/-- Python `.strip('. ')`: drop `.` and space from both ends. -/
def stripDotSpace (l : List Char) : List Char :=
  (l.dropWhile dotSpace).rdropWhile dotSpace

/-- `re.sub(r'[<>:"|?*\x00-\x1f]', '_', s)`. -/
def replaceHostile (l : List Char) : List Char :=
  l.map (fun c => if hostileChar c then '_' else c)

/-- `ImageProcessor.sanitize_filename` from processor.py. -/
def sanitize_filename (s : String) : String :=
  if s.data = [] then "unnamed_file"
  else
    let b := basenameChars s.data
    if b = [] ∨ b = ['.'] ∨ b = ['.', '.'] then "unnamed_file"
    else
      let r := stripDotSpace (replaceHostile b)
      if r = [] then "unnamed_file" else String.mk r

example : sanitize_filename "../../../etc/passwd" = "passwd" := by decide

example : sanitize_filename ".." = "unnamed_file" := by decide

example : sanitize_filename "a<b>.png " = "a_b_.png" := by decide

/-- Characterisation of a string that `sanitize_filename` leaves unchanged:
nonempty, no `/`, no hostile characters, and no leading/trailing `.` or space. -/
def goodName (l : List Char) : Prop :=
  l ≠ [] ∧ (∀ c ∈ l, (c == '/') = false ∧ hostileChar c = false) ∧
    (∀ c, l.head? = some c → dotSpace c = false) ∧
    (∀ c, l.getLast? = some c → dotSpace c = false)

lemma mem_replaceHostile {l : List Char} {c : Char} (hc : c ∈ replaceHostile l) :
    (c == '/') = false → hostileChar c = false := by
  intro _
  rcases List.mem_map.1 hc with ⟨c₀, _, rfl⟩
  by_cases h : hostileChar c₀ = true
  · rw [if_pos h]; decide
  · rw [Bool.not_eq_true] at h
    rw [if_neg (by simp [h])]
    exact h

lemma slash_not_mem_replaceHostile {l : List Char} (hl : ∀ c ∈ l, (c == '/') = false) :
    ∀ c ∈ replaceHostile l, (c == '/') = false := by
  intro c hc
  rcases List.mem_map.1 hc with ⟨c₀, hc₀, rfl⟩
  by_cases h : hostileChar c₀ = true
  · rw [if_pos h]; decide
  · rw [Bool.not_eq_true] at h
    rw [if_neg (by simp [h])]
    exact hl c₀ hc₀

lemma replaceHostile_eq_self {l : List Char} (h : ∀ c ∈ l, hostileChar c = false) :
    replaceHostile l = l := by
  induction l with
  | nil => rfl
  | cons a t ih =>
    have ha := h a (List.mem_cons_self a t)
    show (if hostileChar a = true then '_' else a) :: replaceHostile t = a :: t
    rw [if_neg (by simp [ha]), ih (fun c hc => h c (List.mem_cons_of_mem a hc))]

lemma stripDotSpace_subset (l : List Char) : ∀ c ∈ stripDotSpace l, c ∈ l := by
  intro c hc
  unfold stripDotSpace at hc
  exact (List.dropWhile_sublist dotSpace).subset
    ((( List.rdropWhile_prefix dotSpace (l.dropWhile dotSpace)).sublist).subset hc)

lemma stripDotSpace_head {l : List Char} {c : Char}
    (hc : (stripDotSpace l).head? = some c) : dotSpace c = false := by
  have hne : stripDotSpace l ≠ [] := by
    intro h; rw [h] at hc; simp at hc
  unfold stripDotSpace at hc hne
  obtain ⟨t, ht⟩ := List.rdropWhile_prefix dotSpace (l.dropWhile dotSpace)
  have hd : (l.dropWhile dotSpace).head? = some c := by
    rw [← ht, List.head?_append, hc]; rfl
  have := List.head?_dropWhile_not dotSpace l
  rw [hd] at this
  exact this

lemma stripDotSpace_last {l : List Char} {c : Char}
    (hc : (stripDotSpace l).getLast? = some c) : dotSpace c = false := by
  have hne : stripDotSpace l ≠ [] := by
    intro h; rw [h] at hc; simp at hc
  unfold stripDotSpace at hc hne
  have hlast := List.rdropWhile_last_not dotSpace (l.dropWhile dotSpace) hne
  rw [List.getLast?_eq_getLast _ hne] at hc
  have h2 := Option.some.inj hc
  rw [h2] at hlast
  simpa using hlast

lemma stripDotSpace_eq_self {l : List Char}
    (h1 : ∀ c, l.head? = some c → dotSpace c = false)
    (h2 : ∀ c, l.getLast? = some c → dotSpace c = false) :
    stripDotSpace l = l := by
  unfold stripDotSpace
  have hdrop : l.dropWhile dotSpace = l := by
    rw [List.dropWhile_eq_self_iff]
    intro hl
    cases l with
    | nil => simp at hl
    | cons a t =>
      have := h1 a rfl
      simp [List.get, this]
  rw [hdrop, List.rdropWhile_eq_self_iff]
  intro hl
  have := h2 (l.getLast hl) (List.getLast?_eq_getLast l hl)
  simp [this]

/-- Either `sanitize_filename` returns the placeholder, or its output is a
"good" name. -/
lemma sanitize_filename_cases (s : String) :
    sanitize_filename s = "unnamed_file" ∨ goodName (sanitize_filename s).data := by
  unfold sanitize_filename
  by_cases h0 : s.data = []
  · left; simp [h0]
  · rw [if_neg h0]
    by_cases hb : basenameChars s.data = [] ∨ basenameChars s.data = ['.'] ∨
        basenameChars s.data = ['.', '.']
    · left; rw [if_pos hb]
    · rw [if_neg hb]
      by_cases hr : stripDotSpace (replaceHostile (basenameChars s.data)) = []
      · left; rw [if_pos hr]
      · right
        rw [if_neg hr]
        refine ⟨hr, ?_, ?_, ?_⟩
        · intro c hc
          have hc' := stripDotSpace_subset _ c hc
          have hslash : ∀ c ∈ basenameChars s.data, (c == '/') = false := by
            intro c hc
            have := List.mem_rtakeWhile_imp hc
            simpa using this
          have h1 := slash_not_mem_replaceHostile hslash c hc'
          exact ⟨h1, mem_replaceHostile hc' h1⟩
        · intro c hc
          exact stripDotSpace_head hc
        · intro c hc
          exact stripDotSpace_last hc

/-- A good name is a fixed point of `sanitize_filename`. -/
lemma sanitize_filename_fixed {l : List Char} (h : goodName l) :
    sanitize_filename (String.mk l) = String.mk l := by
  obtain ⟨hne, hmem, hhead, hlast⟩ := h
  unfold sanitize_filename
  rw [if_neg hne]
  have hbase : basenameChars l = l := by
    unfold basenameChars
    rw [List.rtakeWhile_eq_self_iff]
    intro c hc
    simp [(hmem c hc).1]
  have hnotsingle : ¬ (basenameChars l = [] ∨ basenameChars l = ['.'] ∨
      basenameChars l = ['.', '.']) := by
    rw [hbase]
    rintro (h | h | h)
    · exact hne h
    · subst h
      have := hhead '.' rfl
      simp [dotSpace] at this
    · subst h
      have := hhead '.' rfl
      simp [dotSpace] at this
  rw [if_neg hnotsingle, hbase]
  have hrepl : replaceHostile l = l := replaceHostile_eq_self (fun c hc => (hmem c hc).2)
  rw [hrepl]
  have hstrip : stripDotSpace l = l := stripDotSpace_eq_self hhead hlast
  rw [hstrip, if_neg hne]

lemma sanitize_filename_placeholder :
    sanitize_filename "unnamed_file" = "unnamed_file" := by decide

/-- C10: `sanitize_filename` is idempotent. -/
theorem sanitize_filename_idempotent (s : String) :
    sanitize_filename (sanitize_filename s) = sanitize_filename s := by
  rcases sanitize_filename_cases s with h | h
  · rw [h]; exact sanitize_filename_placeholder
  · have : String.mk (sanitize_filename s).data = sanitize_filename s := rfl
    calc sanitize_filename (sanitize_filename s)
        = sanitize_filename (String.mk (sanitize_filename s).data) := by rw [this]
      _ = String.mk (sanitize_filename s).data := sanitize_filename_fixed h
      _ = sanitize_filename s := this

/-! ### Decimal rendering of naturals

`JobStorage._generate_unique_name` builds candidate names with Python
f-strings `f"{requested_name}_{index}"`; the Lean embedding uses `Nat.repr`.
To reason about collisions we prove `Nat.repr` injective via an explicit
most-significant-digit-first construction and a decoder.
-/

/-- Numeric value of a decimal digit character. -/
def digitVal (c : Char) : Nat := c.toNat - '0'.toNat

lemma digitVal_digitChar {d : Nat} (h : d < 10) :
    digitVal (Nat.digitChar d) = d := by
  interval_cases d <;> rfl

/-- Decimal digits of `n`, most significant first (structured counterpart of
`Nat.toDigitsCore`). -/
def natDigits (n : Nat) : List Char :=
  if n < 10 then [Nat.digitChar n]
  else natDigits (n / 10) ++ [Nat.digitChar (n % 10)]
decreasing_by exact Nat.div_lt_self (by omega) (by omega)

lemma toDigitsCore_eq_natDigits :
    ∀ (fuel n : Nat) (ds : List Char), n < fuel →
      Nat.toDigitsCore 10 fuel n ds = natDigits n ++ ds := by
  intro fuel
  induction fuel with
  | zero => intro n ds h; omega
  | succ fuel ih =>
    intro n ds h
    rw [Nat.toDigitsCore]
    by_cases h10 : n / 10 = 0
    · have hn : n < 10 := by omega
      rw [if_pos h10, natDigits, if_pos hn, Nat.mod_eq_of_lt hn]
      rfl
    · have hn : ¬ n < 10 := by omega
      rw [if_neg h10, ih (n / 10) _ (by omega)]
      conv_rhs => rw [natDigits, if_neg hn, List.append_assoc]
      rfl

lemma repr_eq_natDigits (n : Nat) : (Nat.repr n).data = natDigits n := by
  show (Nat.toDigitsCore 10 (n + 1) n []).asString.data = natDigits n
  rw [toDigitsCore_eq_natDigits (n + 1) n [] (by omega), List.append_nil]
  rfl

/-- Decode a most-significant-first digit list. -/
def decodeDigits (l : List Char) : Nat :=
  l.foldl (fun a c => a * 10 + digitVal c) 0

lemma foldl_natDigits (n : Nat) :
    ∀ a : Nat, List.foldl (fun a c => a * 10 + digitVal c) a (natDigits n) =
      a * 10 ^ (natDigits n).length + n := by
  induction n using Nat.strong_induction_on with
  | _ n ih =>
    intro a
    by_cases h : n < 10
    · rw [natDigits, if_pos h]
      simp [digitVal_digitChar h]
    · rw [natDigits, if_neg h]
      rw [List.foldl_append, ih (n / 10) (Nat.div_lt_self (by omega) (by omega)) a]
      simp only [List.foldl_cons, List.foldl_nil, List.length_append,
        List.length_singleton]
      rw [digitVal_digitChar (Nat.mod_lt n (by omega))]
      rw [pow_succ]
      generalize (10 : ℕ) ^ (natDigits (n / 10)).length = M
      have hdm : 10 * (n / 10) + n % 10 = n := Nat.div_add_mod n 10
      have expand : (a * M + n / 10) * 10 + n % 10
          = a * (M * 10) + (10 * (n / 10) + n % 10) := by ring
      rw [expand, hdm]

lemma decodeDigits_natDigits (n : Nat) : decodeDigits (natDigits n) = n := by
  unfold decodeDigits
  rw [foldl_natDigits n 0]
  simp

lemma natRepr_injective : Function.Injective Nat.repr := by
  intro m n h
  have : natDigits m = natDigits n := by
    rw [← repr_eq_natDigits, ← repr_eq_natDigits, h]
  calc m = decodeDigits (natDigits m) := (decodeDigits_natDigits m).symm
    _ = decodeDigits (natDigits n) := by rw [this]
    _ = n := decodeDigits_natDigits n

/-! ### `JobStorage._generate_unique_name` (storage.py, lines 20-39)

The Python method scans `base_dir` and collects every existing manifest's
`name` into a set; the embedding abstracts that set as the list `existing`.
The `while` loop `while f"{requested_name}_{index}" in existing_names` has no
bound in the source; it is embedded with fuel `existing.length + 1`, which is
proved sufficient (`generate_free_index_exists`), so the fuel-exhausted branch
is never reached.
-/

/-- `f"{requested_name}_{index}"`. -/
def candidateName (base : String) (i : Nat) : String :=
  base ++ "_" ++ Nat.repr i

/-- The `index = 1; while ...: index += 1` loop of `_generate_unique_name`. -/
def findSuffix (existing : List String) (base : String) : Nat → Nat → String
  | 0, i => candidateName base i
  | fuel + 1, i =>
    if candidateName base i ∈ existing then findSuffix existing base fuel (i + 1)
    else candidateName base i

/-- `JobStorage._generate_unique_name`, for a caller-supplied requested name
(the `requested_name is None` branch synthesises a timestamp name and is not
modelled; the claims quantify over requested names). -/
def generate_unique_name (existing : List String) (requested : String) : String :=
  if requested ∈ existing then findSuffix existing requested (existing.length + 1) 1
  else requested

lemma candidateName_injective (base : String) : Function.Injective (candidateName base) := by
  intro i j h
  apply natRepr_injective
  apply String.ext
  have := congrArg String.data h
  simp only [candidateName, String.data_append] at this
  exact List.append_cancel_left this

/-- Within any window of `existing.length + 1` consecutive indices, some
candidate name is free. -/
lemma generate_free_index_exists (existing : List String) (base : String) (i : Nat) :
    ∃ j, i ≤ j ∧ j < i + (existing.length + 1) ∧ candidateName base j ∉ existing := by
  by_contra hall
  push_neg at hall
  have hmaps : ∀ j ∈ Finset.Icc i (i + existing.length),
      candidateName base j ∈ existing.toFinset := by
    intro j hj
    rw [Finset.mem_Icc] at hj
    rw [List.mem_toFinset]
    exact hall j hj.1 (by omega)
  have hcard : existing.toFinset.card < (Finset.Icc i (i + existing.length)).card := by
    have h1 : existing.toFinset.card ≤ existing.length := existing.toFinset_card_le
    have h2 : (Finset.Icc i (i + existing.length)).card = existing.length + 1 := by
      rw [Nat.card_Icc]; omega
    omega
  obtain ⟨j, hj, j', hj', hne, heq⟩ :=
    Finset.exists_ne_map_eq_of_card_lt_of_maps_to hcard hmaps
  exact hne (candidateName_injective base heq)

lemma findSuffix_not_mem (existing : List String) (base : String) :
    ∀ (fuel i : Nat),
      (∃ j, i ≤ j ∧ j < i + fuel ∧ candidateName base j ∉ existing) →
      findSuffix existing base fuel i ∉ existing := by
  intro fuel
  induction fuel with
  | zero =>
    intro i h
    obtain ⟨j, h1, h2, _⟩ := h
    omega
  | succ fuel ih =>
    intro i h
    rw [findSuffix]
    by_cases hmem : candidateName base i ∈ existing
    · rw [if_pos hmem]
      apply ih
      obtain ⟨j, h1, h2, h3⟩ := h
      refine ⟨j, ?_, by omega, h3⟩
      rcases Nat.eq_or_lt_of_le h1 with rfl | h
      · exact absurd hmem h3
      · omega
    · rw [if_neg hmem]
      exact hmem

/-- The name returned by `_generate_unique_name` never collides with an
existing job's name. -/
lemma generate_unique_name_not_mem (existing : List String) (requested : String) :
    generate_unique_name existing requested ∉ existing := by
  unfold generate_unique_name
  by_cases h : requested ∈ existing
  · rw [if_pos h]
    exact findSuffix_not_mem existing requested _ 1
      (generate_free_index_exists existing requested 1)
  · rw [if_neg h]
    exact h

lemma append_ne_self (s t : String) (h : t.data ≠ []) : s ++ t ≠ s := by
  intro heq
  have hlen := congrArg (fun x => x.data.length) heq
  simp only [String.data_append, List.length_append] at hlen
  have : t.data.length = 0 := by omega
  exact h (List.length_eq_zero.mp this)

lemma candidateName_eq_append (n : String) (i : Nat) (s : String)
    (h : ("_".data ++ (Nat.repr i).data) = s.data) :
    candidateName n i = n ++ s := by
  apply String.ext
  simp only [candidateName, String.data_append, List.append_assoc]
  rw [h]

lemma candidateName_one (n : String) : candidateName n 1 = n ++ "_1" :=
  candidateName_eq_append n 1 "_1" (by decide)

lemma candidateName_two (n : String) : candidateName n 2 = n ++ "_2" :=
  candidateName_eq_append n 2 "_2" (by decide)

lemma append_right_ne (n s t : String) (h : s.data ≠ t.data) : n ++ s ≠ n ++ t := by
  intro heq
  have hd := congrArg String.data heq
  simp only [String.data_append] at hd
  exact h (List.append_cancel_left hd)

/-- C2: `_generate_unique_name` resolves collisions by appending `_1`, `_2`, …:
with no existing job the requested name `n` is stored as-is, a second job
requesting `n` stores `n_1`, a third stores `n_2`, and in general the resolved
name never collides with any existing job's name, so no two live jobs share a
display name. -/
theorem generate_unique_name_spec (n : String) (existing : List String) :
    generate_unique_name existing n ∉ existing ∧
    generate_unique_name [] n = n ∧
    generate_unique_name [n] n = n ++ "_1" ∧
    generate_unique_name [n, n ++ "_1"] n = n ++ "_2" := by
  refine ⟨generate_unique_name_not_mem existing n, ?_, ?_, ?_⟩
  · unfold generate_unique_name
    rw [if_neg (List.not_mem_nil n)]
  · unfold generate_unique_name
    rw [if_pos (List.mem_singleton.mpr rfl)]
    show findSuffix [n] n 2 1 = n ++ "_1"
    rw [findSuffix]
    have h1 : candidateName n 1 ∉ [n] := by
      rw [List.mem_singleton, candidateName_one]
      exact append_ne_self n "_1" (by decide)
    rw [if_neg h1, candidateName_one]
  · unfold generate_unique_name
    rw [if_pos (List.mem_cons_self n [n ++ "_1"])]
    show findSuffix [n, n ++ "_1"] n 3 1 = n ++ "_2"
    rw [findSuffix]
    have h1 : candidateName n 1 ∈ [n, n ++ "_1"] := by
      rw [candidateName_one]
      exact List.mem_cons_of_mem n (List.mem_singleton.mpr rfl)
    rw [if_pos h1, findSuffix]
    have h2 : candidateName n 2 ∉ [n, n ++ "_1"] := by
      rw [candidateName_two]
      intro hmem
      rcases List.mem_cons.mp hmem with h | h
      · exact append_ne_self n "_2" (by decide) h
      · rw [List.mem_singleton] at h
        exact append_right_ne n "_2" "_1" (by decide) h
    rw [if_neg h2, candidateName_two]

/-! ### The job manifest and `JobStorage.update_status` (storage.py)

The manifest JSON document is embedded as a structure; timestamps are opaque
strings supplied explicitly (`datetime.now().isoformat()`), the parameter bag
holds the confidence threshold (a Python float modelled as `ℚ`).
-/

structure Manifest where
  job_id : String
  name : String
  status : String
  total_images : Nat
  processed_images : Nat
  images_with_detections : Nat
  created_at : String
  completed_at : Option String
  parameters : ℚ
deriving DecidableEq, Repr

/-- The manifest written by `JobStorage.create_job` (storage.py, lines 58-68). -/
def create_job_manifest (job_id uniqueName : String) (confidence_threshold : ℚ)
    (total_images : Nat) (now : String) : Manifest :=
  { job_id := job_id
    name := uniqueName
    status := "queued"
    total_images := total_images
    processed_images := 0
    images_with_detections := 0
    created_at := now
    completed_at := none
    parameters := confidence_threshold }

/-- `JobStorage.update_status` (storage.py, lines 109-131) applied to a loaded
manifest; `now` is the value of `datetime.now().isoformat()` at the call. -/
def update_status (m : Manifest) (status : String)
    (processed_images images_with_detections : Option Nat) (now : String) : Manifest :=
  let m1 := { m with status := status }
  let m2 := match processed_images with
    | some p => { m1 with processed_images := p }
    | none => m1
  let m3 := match images_with_detections with
    | some d => { m2 with images_with_detections := d }
    | none => m2
  if status = "completed" ∨ status = "failed" then { m3 with completed_at := some now }
  else m3

/-- Field-by-field behaviour of `update_status`. -/
lemma update_status_fields (m : Manifest) (status : String)
    (p d : Option Nat) (now : String) :
    (update_status m status p d now).job_id = m.job_id ∧
    (update_status m status p d now).name = m.name ∧
    (update_status m status p d now).total_images = m.total_images ∧
    (update_status m status p d now).created_at = m.created_at ∧
    (update_status m status p d now).parameters = m.parameters ∧
    (update_status m status p d now).status = status ∧
    (update_status m status p d now).processed_images
      = (p.getD m.processed_images) ∧
    (update_status m status p d now).images_with_detections
      = (d.getD m.images_with_detections) ∧
    (update_status m status p d now).completed_at
      = (if status = "completed" ∨ status = "failed" then some now
         else m.completed_at) := by
  unfold update_status
  rcases p with _ | p <;> rcases d with _ | d <;>
    by_cases h : status = "completed" ∨ status = "failed" <;>
      simp [h]

/-- C9: `update_status` touches only `status`, the two counters (each only
when supplied), and `completed_at` (only when the new status is terminal);
`job_id`, `name`, `total_images`, `created_at` and `parameters` are preserved
by every call. -/
theorem update_status_frame (m : Manifest) (status : String)
    (p d : Option Nat) (now : String) :
    (update_status m status p d now).job_id = m.job_id ∧
    (update_status m status p d now).name = m.name ∧
    (update_status m status p d now).total_images = m.total_images ∧
    (update_status m status p d now).created_at = m.created_at ∧
    (update_status m status p d now).parameters = m.parameters ∧
    (update_status m status p d now).status = status ∧
    (update_status m status p d now).processed_images
      = (p.getD m.processed_images) ∧
    (update_status m status p d now).images_with_detections
      = (d.getD m.images_with_detections) ∧
    (update_status m status p d now).completed_at
      = (if status = "completed" ∨ status = "failed" then some now
         else m.completed_at) :=
  update_status_fields m status p d now

/-! ### Detections and `ImageProcessor.process_image` (processor.py, lines 18-70)

A detection's bounding box is four pixel coordinates, its confidence a float
(modelled as `ℚ`). `process_image` wraps the whole body in `try/except`; the
file-system and detector behaviour it observes is captured in `ImageEnv`.
-/

structure Detection where
  bbox : List Int
  confidence : ℚ
  class_name : String
deriving DecidableEq, Repr

structure ImageResult where
  filename : String
  detections : List Detection
  success : Bool
  error : Option String
deriving DecidableEq, Repr

/-- What the file system / OpenCV / detector do for one `process_image` call:
`existsOnDisk` is `os.path.exists`, `decodes` is `cv2.imread(...) is not None`,
`imgNonempty` is `test_img.size != 0`, `detect` is the detector call (which may
raise), `copyOk` is the `shutil.copy` into the output area. -/
structure ImageEnv where
  existsOnDisk : Bool
  decodes : Bool
  imgNonempty : Bool
  detect : Except String (List Detection)
  copyOk : Except String Unit
deriving Repr

/-- `os.path.basename` on a posix path. -/
def basenameStr (s : String) : String := ⟨basenameChars s.data⟩

/-- Python `str.lower()`. -/
def strToLower (s : String) : String := ⟨s.data.map Char.toLower⟩

/-- The OpenCV message that `process_image` and `extract_zip_archive` rewrite. -/
def stackErrorNeedle : String := "need at least one array to stack"

/-- `if "need at least one array to stack" in error_msg.lower(): ...`
(processor.py, lines 62-64). -/
def normalizeCvError (msg : String) (basename : String) : String :=
  if stackErrorNeedle.data <:+: (strToLower msg).data then
    "Изображение некорректно или повреждено: " ++ basename
  else msg

/-- `ImageProcessor.process_image`: returns a per-image record, catching every
exception raised in its body and recording it as `success=False`. -/
def process_image (env : ImageEnv) (image_path : String) (confidence : Option ℚ) :
    ImageResult :=
  let base := basenameStr image_path
  let fail (msg : String) : ImageResult :=
    { filename := base, detections := [], success := false,
      error := some (normalizeCvError msg base) }
  if !env.existsOnDisk then fail ("Файл не найден: " ++ image_path)
  else if !env.decodes then
    fail ("Не удалось прочитать изображение: " ++ image_path ++
      ". Файл может быть поврежден или иметь неподдерживаемый формат.")
  else if !env.imgNonempty then fail ("Изображение пустое: " ++ image_path)
  else
    match env.detect with
    | .error msg => fail msg
    | .ok dets =>
      let kept := match confidence with
        | none => dets
        | some c => dets.filter (fun d => !(decide (d.confidence < c)))
      match env.copyOk with
      | .error msg => fail msg
      | .ok _ =>
        { filename := base, detections := kept, success := true, error := none }

/-! ### The background loop `process_images_from_paths_task` (main.py, lines 195-294)

Per staged image the loop deduplicates the sanitized base name against
`used_filenames`, copies the file into the job's input area (`stageCopy`, which
may raise), runs `process_image`, keeps the running counters, and calls
`update_status` after each successfully handled image; a loop-body exception is
caught per image and recorded as a failed result without an `update_status`
call. The calls made to `JobStorage.update_status` are accumulated in
`updates`.
-/

/-- `os.path.splitext` on a bare filename: split at the last `.`, except that
leading dots never start an extension. -/
def splitext (l : List Char) : List Char × List Char :=
  let lead := l.takeWhile (fun c => c == '.')
  let rest := l.drop lead.length
  let tail := rest.rtakeWhile (fun c => !(c == '.'))
  if tail.length = rest.length then (l, [])
  else (l.take (l.length - (tail.length + 1)), l.drop (l.length - (tail.length + 1)))

example : splitext "a.b.png".data = ("a.b".data, ".png".data) := by decide

example : splitext "..a".data = ("..a".data, "".data) := by decide

/-- The `used_filenames` dict, as an association list. -/
def usedLookup (used : List (String × Nat)) (k : String) : Option Nat :=
  (used.find? (fun e => e.1 == k)).map Prod.snd

def usedSet (used : List (String × Nat)) (k : String) (v : Nat) : List (String × Nat) :=
  if (used.find? (fun e => e.1 == k)).isSome then
    used.map (fun e => if e.1 == k then (k, v) else e)
  else used ++ [(k, v)]

/-- The filename-deduplication block (main.py, lines 221-228 and 262-269):
returns the chosen filename and the updated `used_filenames`. -/
def dedupeFilename (used : List (String × Nat)) (base : String) :
    String × List (String × Nat) :=
  match usedLookup used base with
  | some k =>
    let se := splitext base.data
    (⟨se.1⟩ ++ "_" ++ Nat.repr (k + 1) ++ ⟨se.2⟩, usedSet used base (k + 1))
  | none => (base, usedSet used base 0)

/-- One argument to `JobStorage.update_status`. -/
structure StatusUpdate where
  status : String
  processed : Option Nat
  withDet : Option Nat
deriving DecidableEq, Repr

/-- One staged image handed to the background task: its temp path, whether the
copy into the input area succeeds, and the environment `process_image` sees. -/
structure LoopImage where
  path : String
  stageCopy : Except String Unit
  env : ImageEnv
deriving Repr

structure LoopState where
  results : List ImageResult
  processed : Nat
  withDet : Nat
  used : List (String × Nat)
  updates : List StatusUpdate
deriving Repr

/-- Body of the `for image_path in image_paths` loop (main.py, lines 217-278). -/
def loopBody (conf : ℚ) (st : LoopState) (img : LoopImage) : LoopState :=
  let base := sanitize_filename (basenameStr img.path)
  let dd := dedupeFilename st.used base
  match img.stageCopy with
  | .error msg =>
    -- `except` branch: the dict was already updated in the `try` block, and the
    -- dedup logic runs again on the updated dict (main.py, lines 261-278)
    let dd2 := dedupeFilename dd.2 base
    let errRes : ImageResult :=
      { filename := dd2.1, detections := [], success := false, error := some msg }
    { st with
      results := st.results ++ [errRes]
      processed := st.processed + 1
      used := dd2.2 }
  | .ok _ =>
    let r0 := process_image img.env img.path (some conf)
    let r := { r0 with filename := dd.1 }
    let withDet' := if r.detections.length > 0 then st.withDet + 1 else st.withDet
    { results := st.results ++ [r]
      processed := st.processed + 1
      withDet := withDet'
      used := dd.2
      updates := st.updates ++
        [⟨"processing", some (st.processed + 1), some withDet'⟩] }

/-- State when the loop starts: the task has already called
`update_status(job_id, "processing")` (main.py, line 206). -/
def initLoopState : LoopState :=
  { results := [], processed := 0, withDet := 0, used := [],
    updates := [⟨"processing", none, none⟩] }

def runLoop (conf : ℚ) (imgs : List LoopImage) : LoopState :=
  imgs.foldl (loopBody conf) initLoopState

/-- The complete background task on its happy path: the per-image loop, then
`save_detections` (the returned result list) and the final
`update_status(job_id, "completed", ...)` (main.py, lines 280-286). -/
def process_images_from_paths_task (conf : ℚ) (imgs : List LoopImage) :
    List ImageResult × List StatusUpdate :=
  let fin := runLoop conf imgs
  (fin.results,
    fin.updates ++ [⟨"completed", some fin.processed, some fin.withDet⟩])

/-! ### C1: counter invariant and monotonicity along the observed manifest trace -/

/-- Manifest states a poller can observe: the manifest as created, then the
state after each successive `update_status` call. -/
def jobTrace (now : String) (m0 : Manifest) : List StatusUpdate → List Manifest
  | [] => [m0]
  | u :: us => m0 :: jobTrace now (update_status m0 u.status u.processed u.withDet now) us

/-- The manifest after a sequence of `update_status` calls. -/
def applyUpds (now : String) (m0 : Manifest) : List StatusUpdate → Manifest
  | [] => m0
  | u :: us => applyUpds now (update_status m0 u.status u.processed u.withDet now) us

/-- Both counters non-decreasing from one observed manifest to the next. -/
def counterLE (m m' : Manifest) : Prop :=
  m.processed_images ≤ m'.processed_images ∧
    m.images_with_detections ≤ m'.images_with_detections

instance (m m' : Manifest) : Decidable (counterLE m m') := by
  unfold counterLE; infer_instance

lemma jobTrace_ne_nil (now : String) (m0 : Manifest) (l : List StatusUpdate) :
    jobTrace now m0 l ≠ [] := by
  cases l <;> simp [jobTrace]

lemma getLast?_jobTrace (now : String) :
    ∀ (l : List StatusUpdate) (m0 : Manifest),
      (jobTrace now m0 l).getLast? = some (applyUpds now m0 l) := by
  intro l
  induction l with
  | nil => intro m0; rfl
  | cons u us ih =>
    intro m0
    rw [jobTrace, applyUpds, List.getLast?_cons, ih, Option.getD_some]

lemma jobTrace_snoc (now : String) :
    ∀ (l : List StatusUpdate) (m0 : Manifest) (u : StatusUpdate),
      jobTrace now m0 (l ++ [u]) =
        jobTrace now m0 l ++
          [update_status (applyUpds now m0 l) u.status u.processed u.withDet now] := by
  intro l
  induction l with
  | nil => intro m0 u; rfl
  | cons v vs ih =>
    intro m0 u
    rw [List.cons_append, jobTrace, ih, jobTrace, applyUpds, List.cons_append]

lemma applyUpds_snoc (now : String) :
    ∀ (l : List StatusUpdate) (m0 : Manifest) (u : StatusUpdate),
      applyUpds now m0 (l ++ [u]) =
        update_status (applyUpds now m0 l) u.status u.processed u.withDet now := by
  intro l
  induction l with
  | nil => intro m0 u; rfl
  | cons v vs ih =>
    intro m0 u
    rw [List.cons_append, applyUpds, ih, applyUpds]

/-- The two C1 trace properties, with the running counter bound made explicit. -/
def traceProps (now : String) (m0 : Manifest) (bound : Nat)
    (l : List StatusUpdate) : Prop :=
  (∀ m ∈ jobTrace now m0 l,
      m.images_with_detections ≤ m.processed_images ∧
      m.processed_images ≤ bound ∧
      m.total_images = m0.total_images) ∧
  List.Chain' counterLE (jobTrace now m0 l)

lemma traceProps_mono (now : String) (m0 : Manifest) {b b' : Nat}
    (hb : b ≤ b') {l : List StatusUpdate} (h : traceProps now m0 b l) :
    traceProps now m0 b' l := by
  obtain ⟨h1, h2⟩ := h
  exact ⟨fun m hm => ⟨(h1 m hm).1, le_trans (h1 m hm).2.1 hb, (h1 m hm).2.2⟩, h2⟩

lemma traceProps_snoc (now : String) (m0 : Manifest) (bound : Nat)
    (l : List StatusUpdate) (h : traceProps now m0 bound l)
    (s : String) (p' d' : Nat) (hle : d' ≤ p') (hp : p' ≤ bound)
    (hlastp : (applyUpds now m0 l).processed_images ≤ p')
    (hlastd : (applyUpds now m0 l).images_with_detections ≤ d') :
    traceProps now m0 bound (l ++ [⟨s, some p', some d'⟩]) := by
  obtain ⟨h1, h2⟩ := h
  have hframe := update_status_fields (applyUpds now m0 l) s (some p') (some d') now
  set m' := update_status (applyUpds now m0 l) s (some p') (some d') now with hm'
  have hmem0 : applyUpds now m0 l ∈ jobTrace now m0 l := by
    exact List.mem_of_getLast?_eq_some (getLast?_jobTrace now l m0)
  constructor
  · intro m hm
    rw [jobTrace_snoc, List.mem_append] at hm
    rcases hm with hm | hm
    · exact h1 m hm
    · rw [List.mem_singleton] at hm
      subst hm
      refine ⟨?_, ?_, ?_⟩
      · rw [hframe.2.2.2.2.2.2.2.1, hframe.2.2.2.2.2.2.1]
        exact hle
      · rw [hframe.2.2.2.2.2.2.1]
        exact hp
      · rw [hframe.2.2.1]
        exact (h1 _ hmem0).2.2
  · rw [jobTrace_snoc, List.chain'_append]
    refine ⟨h2, List.chain'_singleton _, ?_⟩
    intro x hx y hy
    rw [getLast?_jobTrace] at hx
    simp only [List.head?_cons, Option.mem_def, Option.some.injEq] at hx hy
    subst hx; subst hy
    constructor
    · rw [hframe.2.2.2.2.2.2.1]; exact hlastp
    · rw [hframe.2.2.2.2.2.2.2.1]; exact hlastd

/-- Loop invariant for `process_images_from_paths_task`. -/
def loopInv (now : String) (m0 : Manifest) (st : LoopState) : Prop :=
  st.withDet ≤ st.processed ∧
  traceProps now m0 st.processed st.updates ∧
  (applyUpds now m0 st.updates).processed_images ≤ st.processed ∧
  (applyUpds now m0 st.updates).images_with_detections ≤ st.withDet

lemma loopInv_init (now jid nm : String) (cth : ℚ) (T : Nat) (created : String) :
    loopInv now (create_job_manifest jid nm cth T created) initLoopState := by
  refine ⟨le_rfl, ⟨?_, ?_⟩, ?_, ?_⟩ <;>
    simp [initLoopState, jobTrace, applyUpds, update_status, create_job_manifest,
      counterLE]

lemma loopInv_step (now : String) (m0 : Manifest) (conf : ℚ)
    (st : LoopState) (img : LoopImage) (h : loopInv now m0 st) :
    loopInv now m0 (loopBody conf st img) := by
  obtain ⟨h1, h2, h3, h4⟩ := h
  unfold loopBody
  cases hc : img.stageCopy with
  | error msg =>
    refine ⟨?_, ?_, ?_, ?_⟩ <;> dsimp only
    · omega
    · exact traceProps_mono now m0 (Nat.le_succ _) h2
    · exact le_trans h3 (Nat.le_succ _)
    · exact h4
  | ok u =>
    dsimp only
    set r := { process_image img.env img.path (some conf) with
      filename := (dedupeFilename st.used (sanitize_filename (basenameStr img.path))).1 }
    set d' := if r.detections.length > 0 then st.withDet + 1 else st.withDet with hd'
    have hdle : st.withDet ≤ d' ∧ d' ≤ st.withDet + 1 := by
      rw [hd']; split <;> omega
    have hinv2 : traceProps now m0 (st.processed + 1)
        (st.updates ++ [⟨"processing", some (st.processed + 1), some d'⟩]) := by
      refine traceProps_snoc now m0 (st.processed + 1) st.updates
        (traceProps_mono now m0 (Nat.le_succ _) h2) "processing"
        (st.processed + 1) d' (by omega) le_rfl
        (le_trans h3 (Nat.le_succ _)) (le_trans h4 hdle.1)
    have happ := applyUpds_snoc now st.updates m0
      ⟨"processing", some (st.processed + 1), some d'⟩
    have hframe := update_status_fields (applyUpds now m0 st.updates) "processing"
      (some (st.processed + 1)) (some d') now
    refine ⟨?_, ?_, ?_, ?_⟩ <;> dsimp only
    · omega
    · exact hinv2
    · rw [happ]
      dsimp only
      rw [hframe.2.2.2.2.2.2.1]
      simp
    · rw [happ]
      dsimp only
      rw [hframe.2.2.2.2.2.2.2.1]
      simp

lemma loopInv_run (now : String) (m0 : Manifest) (conf : ℚ) :
    ∀ (imgs : List LoopImage) (st : LoopState), loopInv now m0 st →
      loopInv now m0 (imgs.foldl (loopBody conf) st) := by
  intro imgs
  induction imgs with
  | nil => intro st h; exact h
  | cons i is ih =>
    intro st h
    exact ih _ (loopInv_step now m0 conf st i h)

lemma foldl_processed (conf : ℚ) :
    ∀ (imgs : List LoopImage) (st : LoopState),
      (imgs.foldl (loopBody conf) st).processed = st.processed + imgs.length := by
  intro imgs
  induction imgs with
  | nil => intro st; simp
  | cons i is ih =>
    intro st
    rw [List.foldl_cons, ih]
    have hstep : (loopBody conf st i).processed = st.processed + 1 := by
      unfold loopBody
      cases i.stageCopy <;> simp
    rw [hstep, List.length_cons]
    omega

/-- C1: along a job's observed manifest trace — the manifest written by
`create_job` followed by the state after each `update_status` call the
background task makes — the counters always satisfy
`images_with_detections ≤ processed_images ≤ total_images`, and both counters
are monotonically non-decreasing from each observed state to the next. -/
theorem task_counter_invariant (jid nm : String) (cth conf : ℚ)
    (imgs : List LoopImage) (created now : String) :
    (∀ m ∈ jobTrace now (create_job_manifest jid nm cth imgs.length created)
        (process_images_from_paths_task conf imgs).2,
      m.images_with_detections ≤ m.processed_images ∧
      m.processed_images ≤ m.total_images) ∧
    List.Chain' counterLE
      (jobTrace now (create_job_manifest jid nm cth imgs.length created)
        (process_images_from_paths_task conf imgs).2) := by
  set m0 := create_job_manifest jid nm cth imgs.length created with hm0
  obtain ⟨h1, h2, h3, h4⟩ :=
    loopInv_run now m0 conf imgs initLoopState
      (loopInv_init now jid nm cth imgs.length created)
  have hproc : (runLoop conf imgs).processed = imgs.length := by
    rw [runLoop, foldl_processed]
    simp [initLoopState]
  have hfinal := traceProps_snoc now m0 (runLoop conf imgs).processed
    (runLoop conf imgs).updates h2 "completed"
    (runLoop conf imgs).processed (runLoop conf imgs).withDet h1 le_rfl h3 h4
  obtain ⟨hb, hchain⟩ := hfinal
  have htask : (process_images_from_paths_task conf imgs).2 =
      (runLoop conf imgs).updates ++
        [⟨"completed", some (runLoop conf imgs).processed,
          some (runLoop conf imgs).withDet⟩] := rfl
  rw [htask]
  constructor
  · intro m hm
    obtain ⟨hdp, hpb, htot⟩ := hb m hm
    refine ⟨hdp, ?_⟩
    rw [htot]
    have htotimg : m0.total_images = imgs.length := rfl
    rw [htotimg]
    omega
  · exact hchain

/-! ### `JobStorage.save_detections` / `get_detections` (storage.py, lines 81-107, 177-185)

`save_detections` serialises each `ImageResult` into a plain dict and rewrites
`detections.json`; `get_detections` parses the file back. CPython's
`json.dump`/`json.load` round-trip the written document exactly (floats are
rendered with `repr` and re-parsed to the identical double), so the file is
modelled as holding the structured document itself.
-/

/-- One entry of the serialised `detections` list:
`{"bbox": ..., "confidence": ..., "class": ...}`. -/
structure DetDictEntry where
  bbox : List Int
  confidence : ℚ
  className : String
deriving DecidableEq, Repr

/-- One serialised per-image record in `detections.json`. -/
structure DetDict where
  filename : String
  detections : List DetDictEntry
  success : Bool
  error : Option String
deriving DecidableEq, Repr

/-- The dict `save_detections` builds from an `ImageResult`
(storage.py, lines 87-102). -/
def imageResultToDict (img : ImageResult) : DetDict :=
  { filename := img.filename
    detections := img.detections.map (fun det =>
      { bbox := det.bbox, confidence := det.confidence, className := det.class_name })
    success := img.success
    error := img.error }

/-- The per-job directory contents relevant to the storage claims: the two
image areas (`none` = the directory does not exist, `some names` = the files
it holds) and the `detections.json` document (`none` = file absent). -/
structure JobDir where
  inputFiles : Option (List String)
  outputFiles : Option (List String)
  detectionsJson : Option (List DetDict)
deriving Repr

/-- `JobStorage.save_detections` called with a list of `ImageResult`s (the
background task's call site, main.py line 280). -/
def save_detections (jd : JobDir) (records : List ImageResult) : JobDir :=
  { jd with detectionsJson := some (records.map imageResultToDict) }

/-- `JobStorage.get_detections`. -/
def get_detections (jd : JobDir) : Option (List DetDict) :=
  jd.detectionsJson

/-- C7: writing detection records and reading them back preserves filename,
bbox list, confidence, success and error of every record exactly. -/
theorem detections_roundtrip (jd : JobDir) (records : List ImageResult) :
    ∃ docs, get_detections (save_detections jd records) = some docs ∧
      docs.length = records.length ∧
      ∀ i (hd : i < docs.length) (hi : i < records.length),
        (docs.get ⟨i, hd⟩).filename = (records.get ⟨i, hi⟩).filename ∧
        (docs.get ⟨i, hd⟩).success = (records.get ⟨i, hi⟩).success ∧
        (docs.get ⟨i, hd⟩).error = (records.get ⟨i, hi⟩).error ∧
        (docs.get ⟨i, hd⟩).detections.map DetDictEntry.bbox
          = (records.get ⟨i, hi⟩).detections.map Detection.bbox ∧
        (docs.get ⟨i, hd⟩).detections.map DetDictEntry.confidence
          = (records.get ⟨i, hi⟩).detections.map Detection.confidence := by
  refine ⟨records.map imageResultToDict, rfl, by simp, ?_⟩
  intro i hd hi
  rw [List.get_map]
  refine ⟨rfl, rfl, rfl, ?_, ?_⟩ <;>
    simp [imageResultToDict, List.map_map, Function.comp]

theorem detections_roundtrip_witness :
    ∃ docs,
      get_detections (save_detections ⟨none, none, none⟩
        [⟨"a.png", [⟨[0, 1, 2, 3], 9/10, "person"⟩], true, none⟩]) = some docs ∧
      docs.length = 1 ∧
      ∀ i (hd : i < docs.length) (hi : i < 1),
        (docs.get ⟨i, hd⟩).filename
          = (([⟨"a.png", [⟨[0, 1, 2, 3], 9/10, "person"⟩], true, none⟩] :
              List ImageResult).get ⟨i, hi⟩).filename ∧
        (docs.get ⟨i, hd⟩).success
          = (([⟨"a.png", [⟨[0, 1, 2, 3], 9/10, "person"⟩], true, none⟩] :
              List ImageResult).get ⟨i, hi⟩).success ∧
        (docs.get ⟨i, hd⟩).error
          = (([⟨"a.png", [⟨[0, 1, 2, 3], 9/10, "person"⟩], true, none⟩] :
              List ImageResult).get ⟨i, hi⟩).error ∧
        (docs.get ⟨i, hd⟩).detections.map DetDictEntry.bbox
          = (([⟨"a.png", [⟨[0, 1, 2, 3], 9/10, "person"⟩], true, none⟩] :
              List ImageResult).get ⟨i, hi⟩).detections.map Detection.bbox ∧
        (docs.get ⟨i, hd⟩).detections.map DetDictEntry.confidence
          = (([⟨"a.png", [⟨[0, 1, 2, 3], 9/10, "person"⟩], true, none⟩] :
              List ImageResult).get ⟨i, hi⟩).detections.map Detection.confidence :=
  detections_roundtrip ⟨none, none, none⟩
    [⟨"a.png", [⟨[0, 1, 2, 3], 9/10, "person"⟩], true, none⟩]

/-! ### C6: failed images are recorded and never abort the batch -/

/-- The parts of a record that do not depend on filename deduplication. -/
def resultCore (r : ImageResult) : List Detection × Bool × Option String :=
  (r.detections, r.success, r.error)

/-- What the loop records for one staged image, up to the deduplicated name. -/
def expectedCore (conf : ℚ) (img : LoopImage) : List Detection × Bool × Option String :=
  match img.stageCopy with
  | .error msg => ([], false, some msg)
  | .ok _ => resultCore (process_image img.env img.path (some conf))

lemma loopBody_results_core (conf : ℚ) (st : LoopState) (img : LoopImage) :
    (loopBody conf st img).results.map resultCore
      = st.results.map resultCore ++ [expectedCore conf img] := by
  unfold loopBody expectedCore
  cases hc : img.stageCopy with
  | error msg => simp [resultCore]
  | ok u => simp [resultCore]

lemma foldl_results_core (conf : ℚ) :
    ∀ (imgs : List LoopImage) (st : LoopState),
      (imgs.foldl (loopBody conf) st).results.map resultCore
        = st.results.map resultCore ++ imgs.map (expectedCore conf) := by
  intro imgs
  induction imgs with
  | nil => intro st; simp
  | cons i is ih =>
    intro st
    rw [List.foldl_cons, ih, loopBody_results_core, List.map_cons,
      List.append_assoc, List.singleton_append]

lemma runLoop_results_core (conf : ℚ) (imgs : List LoopImage) :
    (runLoop conf imgs).results.map resultCore = imgs.map (expectedCore conf) := by
  rw [runLoop, foldl_results_core]
  simp [initLoopState]

lemma runLoop_results_length (conf : ℚ) (imgs : List LoopImage) :
    (runLoop conf imgs).results.length = imgs.length := by
  have := congrArg List.length (runLoop_results_core conf imgs)
  simpa using this

lemma runLoop_result_get (conf : ℚ) (imgs : List LoopImage) (i : Nat)
    (hi : i < imgs.length) (hr : i < (runLoop conf imgs).results.length) :
    resultCore ((runLoop conf imgs).results.get ⟨i, hr⟩)
      = expectedCore conf (imgs.get ⟨i, hi⟩) := by
  have h := runLoop_results_core conf imgs
  have h2 := congrArg (fun l => l.get? i) h
  simp only [List.get?_map] at h2
  rw [List.get?_eq_get hr, List.get?_eq_get hi] at h2
  simp only [Option.map_some'] at h2
  exact Option.some.inj h2

/-- The message of the exception that `process_image`'s `try` block raises for
a given environment, if any: missing file, unreadable image
(`cv2.imread` returning `None`), empty image, a detector exception, or a
failure of the `shutil.copy` into the output area (processor.py, lines 24-53).
`none` means the body completes without raising. -/
def raisedMsg (env : ImageEnv) (image_path : String) : Option String :=
  if !env.existsOnDisk then some ("Файл не найден: " ++ image_path)
  else if !env.decodes then
    some ("Не удалось прочитать изображение: " ++ image_path ++
      ". Файл может быть поврежден или иметь неподдерживаемый формат.")
  else if !env.imgNonempty then some ("Изображение пустое: " ++ image_path)
  else
    match env.detect with
    | .error msg => some msg
    | .ok _ =>
      match env.copyOk with
      | .error msg => some msg
      | .ok _ => none

/-- Whenever the body of `process_image` raises — whatever the raise point —
the `except` branch returns the failure record with the (normalized)
exception message. -/
lemma process_image_raises (env : ImageEnv) (image_path : String)
    (confidence : Option ℚ) (msg : String)
    (h : raisedMsg env image_path = some msg) :
    process_image env image_path confidence =
      { filename := basenameStr image_path, detections := [], success := false,
        error := some (normalizeCvError msg (basenameStr image_path)) } := by
  unfold raisedMsg at h
  unfold process_image
  cases hex : env.existsOnDisk <;>
    cases hdec : env.decodes <;>
      cases hne : env.imgNonempty <;>
        cases hdet : env.detect <;>
          cases hcopy : env.copyOk <;>
            simp [hex, hdec, hne, hdet, hcopy] at h ⊢ <;> subst h <;> simp

/-- C6 (amended): every staged image yields exactly one record and the batch
never aborts — the result list has one entry per image; after
`save_detections` the whole list (failures included) is returned by
`get_detections`; a loop-body exception is recorded as `success=false` with
the exception message verbatim; any exception raised inside `process_image` —
missing file, unreadable image, empty image, detector error, output-copy
failure — is recorded as `success=false` with the exception message after the
one OpenCV rewrite (`normalizeCvError`). -/
theorem failed_images_recorded (conf : ℚ) (imgs : List LoopImage) (jd : JobDir) :
    (runLoop conf imgs).results.length = imgs.length ∧
    get_detections (save_detections jd (runLoop conf imgs).results)
      = some ((runLoop conf imgs).results.map imageResultToDict) ∧
    ∀ i (hi : i < imgs.length) (hr : i < (runLoop conf imgs).results.length),
      (∀ msg, (imgs.get ⟨i, hi⟩).stageCopy = Except.error msg →
        ((runLoop conf imgs).results.get ⟨i, hr⟩).success = false ∧
        ((runLoop conf imgs).results.get ⟨i, hr⟩).detections = [] ∧
        ((runLoop conf imgs).results.get ⟨i, hr⟩).error = some msg) ∧
      (∀ u msg, (imgs.get ⟨i, hi⟩).stageCopy = Except.ok u →
        raisedMsg (imgs.get ⟨i, hi⟩).env (imgs.get ⟨i, hi⟩).path = some msg →
        ((runLoop conf imgs).results.get ⟨i, hr⟩).success = false ∧
        ((runLoop conf imgs).results.get ⟨i, hr⟩).detections = [] ∧
        ((runLoop conf imgs).results.get ⟨i, hr⟩).error
          = some (normalizeCvError msg (basenameStr (imgs.get ⟨i, hi⟩).path))) := by
  refine ⟨runLoop_results_length conf imgs, rfl, ?_⟩
  intro i hi hr
  have hcore := runLoop_result_get conf imgs i hi hr
  constructor
  · intro msg hmsg
    rw [expectedCore, hmsg] at hcore
    rw [resultCore] at hcore
    have h1 := congrArg (fun p => p.1) hcore
    have h2 := congrArg (fun p => p.2.1) hcore
    have h3 := congrArg (fun p => p.2.2) hcore
    exact ⟨h2, h1, h3⟩
  · intro u msg hok hmsg
    rw [expectedCore, hok] at hcore
    rw [process_image_raises _ _ _ _ hmsg] at hcore
    rw [resultCore, resultCore] at hcore
    have h1 := congrArg (fun p => p.1) hcore
    have hs := congrArg (fun p => p.2.1) hcore
    have he := congrArg (fun p => p.2.2) hcore
    exact ⟨hs, h1, he⟩

/-- A concrete run showing C6 as literally stated is false: the detector raises
`"need at least one array to stack"`, but the recorded error is the rewritten
message, not the exception message. -/
theorem cv_stack_error_not_recorded_verbatim :
    ((runLoop 1 [⟨"d/img.png", Except.ok (), ⟨true, true, true,
        Except.error "need at least one array to stack", Except.ok ()⟩⟩]).results.map
      (fun r => (r.success, r.error)))
      = [(false, some "Изображение некорректно или повреждено: img.png")] ∧
    ("Изображение некорректно или повреждено: img.png" : String)
      ≠ "need at least one array to stack" := by
  constructor
  · decide
  · decide

/-- The two-failure batch used as the C6 witness: the first image's staging
copy raises in the loop body, the second fails to decode inside
`process_image` (`cv2.imread` returns `None`, the spec's own scenario). -/
def witnessBatch : List LoopImage :=
  [⟨"a/b.png", Except.error "copy failed", ⟨true, true, true,
      Except.ok [], Except.ok ()⟩⟩,
   ⟨"a/c.png", Except.ok (), ⟨true, false, true, Except.ok [], Except.ok ()⟩⟩]

theorem failed_images_recorded_witness :
    ((runLoop 1 witnessBatch).results.length = 2 ∧
    get_detections (save_detections ⟨none, none, none⟩
        (runLoop 1 witnessBatch).results)
      = some ((runLoop 1 witnessBatch).results.map imageResultToDict)) ∧
    (((runLoop 1 witnessBatch).results.get ⟨0, by decide⟩).success = false ∧
      ((runLoop 1 witnessBatch).results.get ⟨0, by decide⟩).error
        = some "copy failed") ∧
    (((runLoop 1 witnessBatch).results.get ⟨1, by decide⟩).success = false ∧
      ((runLoop 1 witnessBatch).results.get ⟨1, by decide⟩).error
        = some (normalizeCvError
            ("Не удалось прочитать изображение: a/c.png" ++
              ". Файл может быть поврежден или иметь неподдерживаемый формат.")
            (basenameStr "a/c.png"))) := by
  have h := failed_images_recorded 1 witnessBatch ⟨none, none, none⟩
  have h0 := (h.2.2 0 (by decide) (by decide)).1 "copy failed" rfl
  have h1 := (h.2.2 1 (by decide) (by decide)).2 ()
    ("Не удалось прочитать изображение: a/c.png" ++
      ". Файл может быть поврежден или иметь неподдерживаемый формат.") rfl rfl
  exact ⟨⟨h.1, h.2.1⟩, ⟨h0.1, h0.2.2⟩, ⟨h1.1, h1.2.2⟩⟩

/-! ### `JobStorage.create_output_zip` (storage.py, lines 203-266)

The archive name is `results_{zip_suffix}.zip` where `zip_suffix` encodes
source variant, detection-only filter, and — when `min_confidence > 0.0` —
the confidence floor rendered as `f"{min_confidence:.2f}"`.
-/

/-- `f"{x:.2f}"` for a non-negative float `x`, modelled on the exact rational
value. CPython rounds the double's exact decimal expansion half-to-even; a
double is a dyadic rational, and `k/100 + 1/200` is never dyadic, so an exact
tie cannot occur and rounding half-up on the rational agrees with CPython. -/
def format2 (q : ℚ) : String :=
  -- ⌊q * 100 + 1/2⌋ computed on the numerator/denominator directly:
  -- q * 100 + 1/2 = (200 * q.num + q.den) / (2 * q.den)
  let n := (Int.fdiv (200 * q.num + q.den) (2 * q.den)).toNat
  Nat.repr (n / 100) ++ "." ++ (if n % 100 < 10 then "0" else "") ++ Nat.repr (n % 100)

example : format2 (mkRat 1 2) = "0.50" := by decide

example : format2 (mkRat 1 1000) = "0.00" := by decide

example : format2 (mkRat 2 1000) = "0.00" := by decide

/-- `zip_suffix` (storage.py, lines 254-258). -/
def zipSuffix (use_original : Bool) (min_confidence : ℚ)
    (only_with_detections : Bool) : String :=
  (if use_original then "original" else "processed")
    ++ (if only_with_detections then "_with_detections" else "")
    ++ (if 0 < min_confidence then "_conf" ++ format2 min_confidence else "")

/-- The archive file name `f"results_{zip_suffix}.zip"`. -/
def zipName (use_original : Bool) (min_confidence : ℚ)
    (only_with_detections : Bool) : String :=
  "results_" ++ zipSuffix use_original min_confidence only_with_detections ++ ".zip"

/-- `max([d.get("confidence", 0.0) for d in dets], default=0.0)`. -/
def maxConfidence (dets : List DetDictEntry) : ℚ :=
  match dets.map (fun d => d.confidence) with
  | [] => 0
  | c :: cs => cs.foldl max c

/-- The `detection_map` lookup (storage.py, lines 218-228, 241): records with
falsy (empty) filenames are skipped; for duplicate filenames the dict keeps
the last record. -/
def detectionInfo (detections : List DetDict) (filename : String) : Option DetDict :=
  detections.reverse.find? (fun d => !(d.filename == "") && d.filename == filename)

/-- The per-file filter (storage.py, lines 239-249). -/
def keepFile (detections : List DetDict) (min_confidence : ℚ)
    (only_with_detections : Bool) (filename : String) : Bool :=
  let info := detectionInfo detections filename
  let max_conf := match info with
    | some d => maxConfidence d.detections
    | none => (0 : ℚ)
  let has := match info with
    | some d => decide (d.detections.length > 0)
    | none => false
  !(only_with_detections && !has) && decide (min_confidence ≤ max_conf)

/-- `Path.suffix.lower()` of a filename. -/
def suffixLower (name : String) : String :=
  strToLower ⟨(splitext name.data).2⟩

def imageExtensions : List String :=
  [".jpg", ".jpeg", ".png", ".tiff", ".tif", ".webp"]

/-- The filtered file set `create_output_zip` would archive. -/
def filteredOf (jd : JobDir) (use_original : Bool) (min_confidence : ℚ)
    (only_with_detections : Bool) : List String :=
  (((if use_original then jd.inputFiles else jd.outputFiles).getD []).filter
      (fun f => imageExtensions.contains (suffixLower f))).filter
    (keepFile (jd.detectionsJson.getD []) min_confidence only_with_detections)

/-- `JobStorage.create_output_zip`: `none` when the source area is missing or
the filtered set is empty; otherwise the written archive's name and the files
archived into it. -/
def create_output_zip (jd : JobDir) (use_original : Bool) (min_confidence : ℚ)
    (only_with_detections : Bool) : Option (String × List String) :=
  match (if use_original then jd.inputFiles else jd.outputFiles) with
  | none => none
  | some sourceFiles =>
    let detections := jd.detectionsJson.getD []
    let image_files := sourceFiles.filter (fun f => imageExtensions.contains (suffixLower f))
    let filtered_files :=
      image_files.filter (keepFile detections min_confidence only_with_detections)
    if filtered_files.isEmpty then none
    else some (zipName use_original min_confidence only_with_detections, filtered_files)

/-- The job state used in the C3 counterexample: a completed job whose output
area holds one image with a detection at confidence 0.5. -/
def collisionJobDir : JobDir :=
  ⟨none, some ["a.png"],
    some [⟨"a.png", [⟨[0, 0, 1, 1], mkRat 1 2, "person"⟩], true, none⟩]⟩

lemma foldl_max_init_le (c : ℚ) : ∀ cs : List ℚ, c ≤ cs.foldl max c := by
  intro cs
  induction cs generalizing c with
  | nil => exact le_rfl
  | cons x xs ih => exact le_trans (le_max_left c x) (ih (max c x))

lemma maxConfidence_nonneg (dets : List DetDictEntry)
    (h : ∀ e ∈ dets, 0 ≤ e.confidence) : 0 ≤ maxConfidence dets := by
  unfold maxConfidence
  cases hm : dets.map (fun d => d.confidence) with
  | nil => exact le_rfl
  | cons c cs =>
    have hc : 0 ≤ c := by
      have hmem : c ∈ dets.map (fun d => d.confidence) := by
        rw [hm]; exact List.mem_cons_self _ _
      obtain ⟨e, he, rfl⟩ := List.mem_map.1 hmem
      exact h e he
    exact le_trans hc (foldl_max_init_le c cs)

lemma detectionInfo_mem {detections : List DetDict} {filename : String} {d : DetDict}
    (h : detectionInfo detections filename = some d) : d ∈ detections := by
  unfold detectionInfo at h
  exact List.mem_reverse.mp (List.mem_of_find?_eq_some h)

/-- C8: given stored records (with the data-model invariant that detection
confidences are ≥ 0), a floor strictly above every record's maximum
confidence makes `create_output_zip` return `none`; in general it returns
`none` exactly when the filtered file set is empty; and a produced archive is
never empty. -/
theorem build_result_archive_absent (jd : JobDir) (u o : Bool) (minc : ℚ)
    (hnn : ∀ d ∈ jd.detectionsJson.getD [], ∀ e ∈ d.detections, 0 ≤ e.confidence) :
    ((jd.detectionsJson.getD [] ≠ []) →
      (∀ d ∈ jd.detectionsJson.getD [], maxConfidence d.detections < minc) →
      create_output_zip jd u minc o = none) ∧
    (create_output_zip jd u minc o = none ↔ filteredOf jd u minc o = []) ∧
    (∀ n fs, create_output_zip jd u minc o = some (n, fs) → fs ≠ []) := by
  have hiff : create_output_zip jd u minc o = none ↔ filteredOf jd u minc o = [] := by
    unfold create_output_zip filteredOf
    cases hsrc : (if u = true then jd.inputFiles else jd.outputFiles) with
    | none => simp
    | some files =>
      dsimp only [Option.getD_some]
      by_cases he : (files.filter
          (fun f => imageExtensions.contains (suffixLower f))).filter
            (keepFile (jd.detectionsJson.getD []) minc o) = []
      · simp [he]
      · simp [he]
  refine ⟨?_, hiff, ?_⟩
  · intro hne hall
    rw [hiff]
    unfold filteredOf
    rw [List.filter_eq_nil_iff]
    intro f hf
    unfold keepFile
    cases hinfo : detectionInfo (jd.detectionsJson.getD []) f with
    | some d =>
      have hd := hall d (detectionInfo_mem hinfo)
      simp only [Bool.and_eq_true, decide_eq_true_eq, not_and]
      intro _
      exact not_le_of_lt hd
    | none =>
      obtain ⟨r, hr⟩ := List.exists_mem_of_ne_nil _ hne
      have h0 : (0 : ℚ) < minc :=
        lt_of_le_of_lt (maxConfidence_nonneg r.detections (hnn r hr)) (hall r hr)
      simp only [Bool.and_eq_true, decide_eq_true_eq, not_and]
      intro _
      exact not_le_of_lt h0
  · intro n fs h
    unfold create_output_zip at h
    split at h
    · exact absurd h (by simp)
    · dsimp only at h
      split at h
      · exact absurd h (by simp)
      · next hemp =>
        have hfs := congrArg Prod.snd (Option.some.inj h)
        dsimp only at hfs
        rw [← hfs]
        intro hnil
        rw [hnil] at hemp
        simp at hemp

theorem build_result_archive_absent_witness :
    create_output_zip collisionJobDir false (mkRat 3 4) false = none :=
  (build_result_archive_absent collisionJobDir false false (mkRat 3 4)
    (by decide)).1 (by decide) (by decide)

/-! ### `ImageProcessor.extract_zip_archive` (processor.py, lines 154-218)

One `ZipEntry` per name in `zip_ref.namelist()`: `read` is the outcome of
`zip_ref.read(member)` (bytes, or the exception it raises), `decodes` whether
`cv2.imread` succeeds on the written payload. The destination directory's
current file names are threaded through for the collision-numbering loop.
-/

instance {ε α : Type} [DecidableEq ε] [DecidableEq α] : DecidableEq (Except ε α) :=
  fun a b =>
  match a, b with
  | .error e1, .error e2 =>
    if h : e1 = e2 then isTrue (by rw [h])
    else isFalse (by intro hh; injection hh; exact h ‹_›)
  | .error _, .ok _ => isFalse (by intro hh; injection hh)
  | .ok _, .error _ => isFalse (by intro hh; injection hh)
  | .ok a1, .ok a2 =>
    if h : a1 = a2 then isTrue (by rw [h])
    else isFalse (by intro hh; injection hh; exact h ‹_›)

structure ZipEntry where
  member : String
  read : Except String (List Nat)
  decodes : Bool
deriving Repr, DecidableEq

/-- `member.endswith('/')`. -/
def endsWithSlash (s : String) : Bool := s.data.getLast? == some '/'

def supported_formats : List String := [".tiff", ".tif", ".png", ".jpg", ".jpeg", ".webp"]

/-- `ImageProcessor.validate_image_format` (processor.py, lines 134-138). -/
def validate_image_format (file_path : String) : Bool :=
  supported_formats.contains (suffixLower file_path)

/-- The `while os.path.exists(extract_path)` numbering loop
(processor.py, lines 183-188), fuelled like `findSuffix`. -/
def findFreePath (fs : List String) (base ext : String) : Nat → Nat → String
  | 0, i => base ++ "_" ++ Nat.repr i ++ ext
  | fuel + 1, i =>
    if fs.contains (base ++ "_" ++ Nat.repr i ++ ext) then
      findFreePath fs base ext fuel (i + 1)
    else base ++ "_" ++ Nat.repr i ++ ext

def collisionFreePath (fs : List String) (name : String) : String :=
  if fs.contains name then
    let se := splitext name.data
    findFreePath fs ⟨se.1⟩ ⟨se.2⟩ (fs.length + 1) 1
  else name

structure ExtractState where
  fs : List String
  extracted : List (String × String)
  errors : List String
deriving Repr

/-- The body of `for member in zip_ref.namelist()` (processor.py, lines 162-205). -/
def extractStep (st : ExtractState) (e : ZipEntry) : ExtractState :=
  if endsWithSlash e.member then st
  else
    let sanitized_member := sanitize_filename e.member
    let filename := basenameStr sanitized_member
    if filename == "" || filename == "unnamed_file" then st
    else if !(validate_image_format filename) then st
    else
      match e.read with
      | .error msg =>
        let error_msg :=
          if stackErrorNeedle.data <:+: (strToLower msg).data then
            e.member ++ ": изображение некорректно или повреждено"
          else msg
        { st with errors := st.errors ++ [e.member ++ ": " ++ error_msg] }
      | .ok file_data =>
        if file_data.isEmpty then
          { st with errors := st.errors ++ [e.member ++ ": файл пустой"] }
        else
          let sanitized_filename := sanitize_filename filename
          let extract_path := collisionFreePath st.fs sanitized_filename
          if e.decodes then
            { fs := st.fs ++ [extract_path]
              extracted := st.extracted ++ [(e.member, extract_path)]
              errors := st.errors }
          else
            { st with
              errors := st.errors ++ [e.member ++ ": не удалось прочитать как изображение"] }

/-- `ImageProcessor.extract_zip_archive`: `none` models an unreadable container
(`zipfile.BadZipFile`). -/
def extract_zip_archive (container : Option (List ZipEntry)) (fs0 : List String) :
    Except String (List (String × String)) :=
  match container with
  | none => .error "Некорректный ZIP-архив"
  | some entries =>
    let fin := entries.foldl extractStep ⟨fs0, [], []⟩
    if fin.extracted.isEmpty then
      .error ("ZIP-архив не содержит валидных изображений" ++
        (if fin.errors.isEmpty then ""
         else ". Ошибки при извлечении: " ++ String.intercalate "; " (fin.errors.take 5)))
    else .ok fin.extracted

/-- An entry survives all filters: not a directory, sanitization does not yield
the placeholder, image-format extension, readable non-empty payload, and the
payload decodes as an image. -/
def entrySurvives (e : ZipEntry) : Bool :=
  if endsWithSlash e.member then false
  else
    let filename := basenameStr (sanitize_filename e.member)
    if filename == "" || filename == "unnamed_file" then false
    else if !(validate_image_format filename) then false
    else
      match e.read with
      | .error _ => false
      | .ok file_data => if file_data.isEmpty then false else e.decodes

lemma extractStep_members (st : ExtractState) (e : ZipEntry) :
    (extractStep st e).extracted.map Prod.fst
      = st.extracted.map Prod.fst ++ (if entrySurvives e then [e.member] else []) := by
  unfold extractStep entrySurvives
  split
  · simp
  · dsimp only
    split
    · simp
    · split
      · simp
      · split
        · simp
        · dsimp only
          split
          · simp
          · by_cases hdec : e.decodes <;> simp [hdec]

lemma foldl_extract_members :
    ∀ (entries : List ZipEntry) (st : ExtractState),
      ((entries.foldl extractStep st).extracted).map Prod.fst
        = st.extracted.map Prod.fst
          ++ (entries.filter entrySurvives).map ZipEntry.member := by
  intro entries
  induction entries with
  | nil => intro st; simp
  | cons e es ih =>
    intro st
    rw [List.foldl_cons, ih, extractStep_members]
    by_cases hs : entrySurvives e <;> simp [hs]

/-- C5: on an unreadable container `extract_zip_archive` raises
unconditionally; on a readable container it returns exactly the surviving
entries (in order), continuing past each failing entry, and raises a
batch-fatal error — whose message aggregates at most five collected per-entry
reasons — exactly when no entry survives. -/
theorem extract_zip_archive_spec (entries : List ZipEntry) (fs0 : List String) :
    extract_zip_archive none fs0 = Except.error "Некорректный ZIP-архив" ∧
    (entries.filter entrySurvives ≠ [] →
      ∃ out, extract_zip_archive (some entries) fs0 = Except.ok out ∧
        out.map Prod.fst = (entries.filter entrySurvives).map ZipEntry.member) ∧
    (entries.filter entrySurvives = [] →
      ∃ errs : List String,
        extract_zip_archive (some entries) fs0 = Except.error
          ("ZIP-архив не содержит валидных изображений" ++
            (if errs.isEmpty then ""
             else ". Ошибки при извлечении: " ++ String.intercalate "; " (errs.take 5))) ∧
        (errs.take 5).length ≤ 5) := by
  have hmem := foldl_extract_members entries ⟨fs0, [], []⟩
  simp only [List.map_nil, List.nil_append] at hmem
  refine ⟨rfl, ?_, ?_⟩
  · intro hne
    unfold extract_zip_archive
    dsimp only
    have hns : ¬ (entries.foldl extractStep ⟨fs0, [], []⟩).extracted.isEmpty = true := by
      rw [List.isEmpty_eq_true]
      intro h0
      rw [h0] at hmem
      simp only [List.map_nil] at hmem
      exact hne (by
        have := congrArg List.length hmem
        simp only [List.length_nil, List.length_map] at this
        exact List.length_eq_zero.mp this.symm)
    rw [if_neg hns]
    exact ⟨_, rfl, hmem⟩
  · intro hnil
    unfold extract_zip_archive
    dsimp only
    have hs : (entries.foldl extractStep ⟨fs0, [], []⟩).extracted.isEmpty = true := by
      rw [List.isEmpty_eq_true]
      rw [hnil] at hmem
      simp only [List.map_nil] at hmem
      exact List.map_eq_nil.mp hmem
    rw [if_pos hs]
    exact ⟨(entries.foldl extractStep ⟨fs0, [], []⟩).errors, rfl,
      le_trans (List.length_take_le 5 _) le_rfl⟩

theorem extract_zip_archive_spec_witness :
    ∃ out, extract_zip_archive
        (some [⟨"dir/", Except.ok [1], true⟩,
               ⟨"a.png", Except.ok [7], true⟩,
               ⟨"b.png", Except.ok [], true⟩,
               ⟨"c.txt", Except.ok [7], true⟩,
               ⟨"d.png", Except.ok [7], false⟩]) []
      = Except.ok out ∧
      out.map Prod.fst
        = (([⟨"dir/", Except.ok [1], true⟩,
             ⟨"a.png", Except.ok [7], true⟩,
             ⟨"b.png", Except.ok [], true⟩,
             ⟨"c.txt", Except.ok [7], true⟩,
             ⟨"d.png", Except.ok [7], false⟩] : List ZipEntry).filter
            entrySurvives).map ZipEntry.member :=
  (extract_zip_archive_spec
    [⟨"dir/", Except.ok [1], true⟩,
     ⟨"a.png", Except.ok [7], true⟩,
     ⟨"b.png", Except.ok [], true⟩,
     ⟨"c.txt", Except.ok [7], true⟩,
     ⟨"d.png", Except.ok [7], false⟩] []).2.1 (by decide)

/-! ### Upload validation (main.py, lines 81-192)

`confidence_threshold` arrives as an optional form string; `float(...)` either
raises (`some (raw, none)`) or yields a Python float, modelled as `PyFloat`
to keep NaN/infinity comparison semantics. The staging/extraction phase is
summarised by the number of valid images it yields; the permanent job store is
the `jobs` list.
-/

inductive PyFloat where
  | nan : PyFloat
  | inf : PyFloat
  | ninf : PyFloat
  | val : ℚ → PyFloat
deriving DecidableEq, Repr

/-- Python `<=` on floats: any comparison involving NaN is false. -/
def pyLe : PyFloat → PyFloat → Bool
  | .nan, _ => false
  | _, .nan => false
  | .ninf, _ => true
  | _, .ninf => false
  | _, .inf => true
  | .inf, _ => false
  | .val a, .val b => decide (a ≤ b)

structure HTTPException where
  status_code : Nat
  detail : String
deriving DecidableEq, Repr

/-- `validate_confidence` (main.py, lines 84-95): the value reaching it always
parsed as a number, so only the range check `0.0 <= confidence <= 1.0` can
fail. -/
def validate_confidence (confidence : PyFloat) : Except HTTPException Unit :=
  if !(pyLe (.val 0) confidence && pyLe confidence (.val 1)) then
    .error ⟨400, "confidence_threshold должен быть в диапазоне от 0.0 до 1.0"⟩
  else .ok ()

def DEFAULT_CONFIDENCE : PyFloat := .val (mkRat 66 100)

/-- The permanent job store as seen by the upload handler. -/
structure UploadState where
  jobs : List String
deriving DecidableEq, Repr

/-- `upload_images` (main.py, lines 97-192): returns the handler outcome and
the resulting job store. `confidence_threshold = some (raw, parse)` is the
submitted form string together with the outcome of `float(raw)`;
`validImages` is how many files survive staging/extraction; `newJobId` the id
`create_job` would allocate. -/
def upload_images (st : UploadState) (detectorLoaded filesEmpty : Bool)
    (confidence_threshold : Option (String × Option PyFloat))
    (validImages : Nat) (newJobId : String) :
    Except HTTPException String × UploadState :=
  if !detectorLoaded then (.error ⟨503, "Детектор не инициализирован"⟩, st)
  else if filesEmpty then (.error ⟨400, "Нет загруженных файлов"⟩, st)
  else
    let confRes : Except HTTPException PyFloat :=
      match confidence_threshold with
      | none => .ok DEFAULT_CONFIDENCE
      | some (raw, none) =>
        .error ⟨400, "confidence_threshold должен быть числом, получено: " ++ raw⟩
      | some (_, some c) => .ok c
    match confRes with
    | .error e => (.error e, st)
    | .ok confidence_value =>
      match validate_confidence confidence_value with
      | .error e => (.error e, st)
      | .ok _ =>
        -- temp staging dir is created and filled only from here on; on the
        -- zero-valid-images rejection it is removed again (lines 188-192)
        if validImages = 0 then
          (.error ⟨400,
            "Нет валидных изображений. Поддерживаемые форматы: TIFF, PNG, JPEG, WEBP, ZIP"⟩,
            st)
        else (.ok newJobId, { st with jobs := st.jobs ++ [newJobId] })

/-- C4: a non-numeric confidence string, or a numeric value outside
`[0.0, 1.0]` (NaN and infinities included), makes the upload handler return an
error with the job store unchanged — no job is created and no write against
the permanent store happens. -/
theorem invalid_confidence_rejected (st : UploadState) (dl fe : Bool)
    (raw : String) (parse : Option PyFloat) (vi : Nat) (jid : String)
    (hbad : parse = none ∨
      ∃ c, parse = some c ∧ (pyLe (.val 0) c && pyLe c (.val 1)) = false) :
    ∃ e : HTTPException,
      upload_images st dl fe (some (raw, parse)) vi jid = (.error e, st) := by
  unfold upload_images
  cases dl with
  | false => exact ⟨_, rfl⟩
  | true =>
    cases fe with
    | true => exact ⟨_, rfl⟩
    | false =>
      rcases hbad with rfl | ⟨c, rfl, hc⟩
      · exact ⟨_, rfl⟩
      · dsimp only
        unfold validate_confidence
        rw [hc]
        exact ⟨_, rfl⟩

theorem invalid_confidence_rejected_witness :
    ∃ e : HTTPException,
      upload_images ⟨["job0"]⟩ true false (some ("1.5", some (.val (mkRat 3 2)))) 4 "job1"
        = (.error e, ⟨["job0"]⟩) :=
  invalid_confidence_rejected ⟨["job0"]⟩ true false "1.5" (some (.val (mkRat 3 2)))
    4 "job1" (Or.inr ⟨.val (mkRat 3 2), rfl, by decide⟩)

end ThermalBackend
